import Mathlib

/-!
Verification of the core logic of a browser-based translation-review
assistant.  The program manipulates nested JSON translation files through a
small path-addressing layer (`flattenObjectKeys`, `getValueByPath`,
`setValueByPath`, `getLineNumber`), selects reference files by
name-sniffing, composes LLM prompts, and orchestrates per-key analysis and
bulk translation.  Everything below is a shallow embedding of the
JavaScript/TypeScript source: JavaScript objects are ordered association
lists, JavaScript arrays are lists of elements together with the extra
string-keyed properties an array can acquire (`arr elems props`; data
parsed from JSON always has `props = []`), and the JavaScript string
functions used by the source (`split`, `toLowerCase`, `includes`,
`replace`, `join`, …) are modelled by structurally recursive functions on
`String.data` so that all definitions evaluate by kernel reduction.
-/

/-- JSON-like JavaScript values.  `arr elems props` models a JavaScript
array: `elems` are its indexed elements and `props` the non-index string
properties that plain assignment can attach to an array object.  Values
obtained from `JSON.parse` always have `props = []`. -/
inductive Json where
  | null : Json
  | bool (b : Bool) : Json
  | num (n : Int) : Json
  | str (s : String) : Json
  | arr (elems : List Json) (props : List (String × Json)) : Json
  | obj (fields : List (String × Json)) : Json

/-- First-match lookup in an association list keyed by strings; models
reading an own property of a JavaScript object. -/
def lookupField {α : Type} : List (String × α) → String → Option α
  | [], _ => none
  | (k, v) :: rest, key => if k = key then some v else lookupField rest key

/-- Replace the binding of `key` in place (JavaScript objects keep the
original insertion position of an overwritten key) or append a new binding. -/
def insertField {α : Type} : List (String × α) → String → α → List (String × α)
  | [], key, v => [(key, v)]
  | (k, w) :: rest, key, v =>
      if k = key then (k, v) :: rest else (k, w) :: insertField rest key v

/-- ASCII lower-casing of one character; models `String.prototype.toLowerCase`
on the ASCII file names the program works with. -/
def charToLower (c : Char) : Char :=
  if 'A' ≤ c && c ≤ 'Z' then Char.ofNat (c.toNat + 32) else c

/-- Models `s.toLowerCase()`. -/
def jsToLowerCase (s : String) : String :=
  String.mk (s.data.map charToLower)

/-- Substring test on character lists: the pattern occurs contiguously. -/
def charsInfixOf (pat : List Char) : List Char → Bool
  | [] => pat.isPrefixOf []
  | c :: cs => pat.isPrefixOf (c :: cs) || charsInfixOf pat cs

/-- Models `s.includes(pat)`. -/
def jsIncludes (s pat : String) : Bool :=
  charsInfixOf pat.data s.data

/-- Models `s.split(c)` for a one-character separator: accumulate the
current field and emit it at each separator and at the end.  The result is
never empty (`"".split(".")` is `[""]`). -/
def splitCharAux (c : Char) : List Char → List Char → List String
  | [], acc => [String.mk acc.reverse]
  | x :: xs, acc =>
      if x = c then String.mk acc.reverse :: splitCharAux c xs []
      else splitCharAux c xs (x :: acc)

/-- Models `s.split(c)` (JavaScript `String.prototype.split` with a
single-character separator). -/
def jsSplit (s : String) (c : Char) : List String :=
  splitCharAux c s.data []

/-- The value of one decimal digit. -/
def digitVal? (c : Char) : Option Nat :=
  if '0' ≤ c && c ≤ '9' then some (c.toNat - '0'.toNat) else none

/-- Parse a non-empty all-digit string. -/
def parseNatAux : List Char → Nat → Option Nat
  | [], acc => some acc
  | c :: cs, acc =>
      match digitVal? c with
      | some d => parseNatAux cs (acc * 10 + d)
      | none => none

/-- A string is a canonical JavaScript array index when it is exactly the
decimal representation of a natural number (so `"05"` or `"-1"` are plain
property names, not indices). -/
def canonicalIndex? (s : String) : Option Nat :=
  match s.data with
  | [] => none
  | _ :: _ =>
      match parseNatAux s.data 0 with
      | some n => if toString n = s then some n else none
      | none => none

/-- `typeof v === "object" && v !== null`: arrays and plain objects. -/
def isObjLike : Json → Bool
  | Json.arr _ _ => true
  | Json.obj _ => true
  | _ => false

/-- One JavaScript property read `v[key]`.  Objects look up their fields;
arrays answer canonical indices from their elements and other keys from
their extra properties; reads on primitives give `undefined` (`none`).
(String character indexing and magic properties such as `length` are
outside the abstraction.) -/
def jsGet : Json → String → Option Json
  | Json.obj fields, key => lookupField fields key
  | Json.arr elems props, key =>
      (match canonicalIndex? key with
       | some n => elems.get? n
       | none => lookupField props key)
  | _, _ => none

/-- Write element `n`, extending the array with `null` padding when the
index is past the end (JavaScript holes read back as absent; after the one
write the program performs, only the written index is ever read). -/
def setElem : List Json → Nat → Json → List Json
  | [], 0, v => [v]
  | [], Nat.succ n, v => Json.null :: setElem [] n v
  | _ :: rest, 0, v => v :: rest
  | x :: rest, Nat.succ n, v => x :: setElem rest n v

/-- One JavaScript property write `v[key] = value`.  On primitives the
assignment is silently ignored (non-strict mode); on arrays a canonical
index writes an element and any other key becomes an extra property. -/
def jsSet : Json → String → Json → Json
  | Json.obj fields, key, v => Json.obj (insertField fields key v)
  | Json.arr elems props, key, v =>
      (match canonicalIndex? key with
       | some n => Json.arr (setElem elems n v) props
       | none => Json.arr elems (insertField props key v))
  | other, _, _ => other

mutual

/-- `JSON.parse(JSON.stringify(obj))`: the deep clone performed by
`setValueByPath`.  On the values of this model it is the identity except
that the extra (non-index) properties of arrays are dropped, exactly as
`JSON.stringify` ignores them. -/
def jsonClone : Json → Json
  | Json.null => Json.null
  | Json.bool b => Json.bool b
  | Json.num n => Json.num n
  | Json.str s => Json.str s
  | Json.arr elems _ => Json.arr (jsonCloneList elems) []
  | Json.obj fields => Json.obj (jsonCloneFields fields)

def jsonCloneList : List Json → List Json
  | [] => []
  | x :: xs => jsonClone x :: jsonCloneList xs

def jsonCloneFields : List (String × Json) → List (String × Json)
  | [] => []
  | (k, v) :: rest => (k, jsonClone v) :: jsonCloneFields rest

end

/-- `path.split(".").reduce((o, i) => o[i], obj)` wrapped in `try`/`catch`:
walk the key list, propagating `undefined` (`none`) as soon as a property
read fails. -/
def getKeys : Json → List String → Option Json
  | j, [] => some j
  | j, k :: rest =>
      match jsGet j k with
      | some c => getKeys c rest
      | none => none

/-- `getValueByPath` from `services/translationService.ts`. -/
def getValueByPath (obj : Json) (path : String) : Option Json :=
  getKeys obj (jsSplit path '.')

/-- The intermediate node the `setValueByPath` loop continues from: an
existing object or array is descended into, anything else (absent,
primitive or `null`) is replaced by a fresh empty object. -/
def childFor (cur : Json) (key : String) : Json :=
  match jsGet cur key with
  | some c => if isObjLike c then c else Json.obj []
  | none => Json.obj []

/-- The walking loop of `setValueByPath` over the already-cloned value:
all keys but the last choose (or create) the next node, the last key
receives the value. -/
def setKeys : Json → List String → Json → Json
  | cur, [], _ => cur
  | cur, [k], v => jsSet cur k v
  | cur, k :: k2 :: rest, v => jsSet cur k (setKeys (childFor cur k) (k2 :: rest) v)

/-- `setValueByPath` from `services/translationService.ts`: deep-clone the
input, then walk the dotted path creating intermediate objects, and set
the final key. -/
def setValueByPath (obj : Json) (path : String) (value : Json) : Json :=
  setKeys (jsonClone obj) (jsSplit path '.') value

theorem lookupField_insertField {α : Type} (l : List (String × α)) (key : String) (v : α) :
    lookupField (insertField l key v) key = some v := by
  induction l with
  | nil => simp [insertField, lookupField]
  | cons p rest ih =>
      by_cases h : p.1 = key
      · simp [insertField, lookupField, h]
      · simp [insertField, lookupField, h, ih]

theorem get?_setElem (elems : List Json) (n : Nat) (v : Json) :
    (setElem elems n v)[n]? = some v := by
  induction elems generalizing n with
  | nil =>
      induction n with
      | zero => simp [setElem]
      | succ m ih => simpa [setElem] using ih
  | cons x rest ih =>
      cases n with
      | zero => simp [setElem]
      | succ m => simpa [setElem] using ih m

/-- After a property write on an object or array, reading the same key
gives back the written value. -/
theorem jsGet_jsSet (cur : Json) (key : String) (v : Json)
    (h : isObjLike cur = true) : jsGet (jsSet cur key v) key = some v := by
  cases cur with
  | obj fields => simp [jsSet, jsGet, lookupField_insertField]
  | arr elems props =>
      cases hidx : canonicalIndex? key with
      | some n => simp [jsSet, jsGet, hidx, get?_setElem]
      | none => simp [jsSet, jsGet, hidx, lookupField_insertField]
  | null => simp [isObjLike] at h
  | bool b => simp [isObjLike] at h
  | num n => simp [isObjLike] at h
  | str s => simp [isObjLike] at h

theorem isObjLike_childFor (cur : Json) (key : String) :
    isObjLike (childFor cur key) = true := by
  unfold childFor
  cases h : jsGet cur key with
  | none => simp [isObjLike]
  | some c => cases c <;> simp [isObjLike]

theorem getKeys_cons (j : Json) (k : String) (rest : List String) (c : Json)
    (h : jsGet j k = some c) : getKeys j (k :: rest) = getKeys c rest := by
  simp [getKeys, h]

/-- Get-after-set along a non-empty key list, starting from any object or
array. -/
theorem getKeys_setKeys (ks : List String) (cur v : Json)
    (hne : ks ≠ []) (h : isObjLike cur = true) :
    getKeys (setKeys cur ks v) ks = some v := by
  induction ks generalizing cur with
  | nil => exact absurd rfl hne
  | cons k rest ih =>
      cases rest with
      | nil => simp [setKeys, getKeys, jsGet_jsSet cur k v h]
      | cons k2 rest2 =>
          have hchild := isObjLike_childFor cur k
          have hrec := ih (childFor cur k) (by simp) hchild
          have hstep : setKeys cur (k :: k2 :: rest2) v
              = jsSet cur k (setKeys (childFor cur k) (k2 :: rest2) v) := rfl
          rw [hstep,
            getKeys_cons _ _ _ _ (jsGet_jsSet cur k (setKeys (childFor cur k) (k2 :: rest2) v) h)]
          exact hrec

theorem splitCharAux_ne_nil (c : Char) (l acc : List Char) :
    splitCharAux c l acc ≠ [] := by
  induction l generalizing acc with
  | nil => simp [splitCharAux]
  | cons x xs ih =>
      by_cases h : x = c
      · simp [splitCharAux, h]
      · simpa [splitCharAux, h] using ih (x :: acc)

theorem jsSplit_ne_nil (s : String) (c : Char) : jsSplit s c ≠ [] :=
  splitCharAux_ne_nil c s.data []

theorem isObjLike_jsonClone (fields : List (String × Json)) :
    isObjLike (jsonClone (Json.obj fields)) = true := rfl

theorem getValueByPath_setValueByPath (fields : List (String × Json)) (path : String)
    (value : Json) :
    getValueByPath (setValueByPath (Json.obj fields) path value) path = some value := by
  unfold getValueByPath setValueByPath
  exact getKeys_setKeys (jsSplit path '.') (jsonClone (Json.obj fields)) value
    (jsSplit_ne_nil path '.') (isObjLike_jsonClone fields)

/-- C1.  For every JSON-like object `data`, every dot-delimited `path` and
every `value`, reading back the path that `setValueByPath` just set yields
exactly the written value.  The input `data` itself is untouched:
`setValueByPath` first deep-clones its argument
(`JSON.parse(JSON.stringify(obj))`, the identity on JSON data in this
model) and only ever writes to the clone — in this pure embedding the
argument is a value, so non-mutation holds by construction, and the
returned value is built from the clone with intermediate empty objects
created for every missing or non-object segment. -/
theorem c1_set_then_get_roundtrip (fields : List (String × Json)) (path : String) (value : Json) :
    getValueByPath (setValueByPath (Json.obj fields) path value) path = some value :=
  getValueByPath_setValueByPath fields path value

/-- A primitive value in the sense of `setValueByPath`: a string, number,
boolean or `null` — anything its loop overwrites with a fresh object. -/
def isScalarOrNull : Json → Bool
  | Json.null => true
  | Json.bool _ => true
  | Json.num _ => true
  | Json.str _ => true
  | _ => false

/-- C10.  When the walk of `setValueByPath` reaches a node whose next
segment currently holds a scalar or `null`, the loop does not fail and does
not keep that value: the remainder of the path is built inside a fresh
empty object that replaces the scalar (first conjunct: the recursion
discards the old child; second: the final leaf is still readable; third:
the prefix now holds an object, not the scalar).  An array at the segment,
by contrast, is kept and descended into (fourth conjunct: the segment still
holds an array after the write). -/
theorem c10_scalar_prefix_replaced (cur : Json) (k k2 : String) (rest : List String) (v : Json)
    (hobj : isObjLike cur = true)
    (hscalar : ∀ c, jsGet cur k = some c → isScalarOrNull c = true) :
    setKeys cur (k :: k2 :: rest) v
      = jsSet cur k (setKeys (Json.obj []) (k2 :: rest) v)
    ∧ getKeys (setKeys cur (k :: k2 :: rest) v) (k :: k2 :: rest) = some v
    ∧ (∀ es ps, jsGet cur k ≠ some (Json.arr es ps)) := by
  have hchild : childFor cur k = Json.obj [] := by
    unfold childFor
    cases h : jsGet cur k with
    | none => rfl
    | some c0 =>
        have hs := hscalar c0 h
        cases c0 with
        | null => simp [isObjLike]
        | bool b => simp [isObjLike]
        | num n => simp [isObjLike]
        | str s => simp [isObjLike]
        | arr es ps => simp [isScalarOrNull] at hs
        | obj fs => simp [isScalarOrNull] at hs
  refine ⟨?_, getKeys_setKeys _ _ _ (by simp) hobj, ?_⟩
  · have hstep : setKeys cur (k :: k2 :: rest) v
        = jsSet cur k (setKeys (childFor cur k) (k2 :: rest) v) := rfl
    rw [hstep, hchild]
  · intro es ps habs
    have hs := hscalar _ habs
    simp [isScalarOrNull] at hs

/-- Witness for C10 at a concrete input: in `{a := "x", b := 1}` setting
path `a.c` to `"v"` replaces the string at `a` by a fresh object holding
`c`. -/
theorem c10_witness :
    setKeys (Json.obj [("a", Json.str "x"), ("b", Json.num 1)]) ["a", "c"] (Json.str "v")
      = jsSet (Json.obj [("a", Json.str "x"), ("b", Json.num 1)]) "a"
          (setKeys (Json.obj []) ["c"] (Json.str "v"))
    ∧ getKeys
        (setKeys (Json.obj [("a", Json.str "x"), ("b", Json.num 1)]) ["a", "c"] (Json.str "v"))
        ["a", "c"] = some (Json.str "v")
    ∧ (∀ es ps,
        jsGet (Json.obj [("a", Json.str "x"), ("b", Json.num 1)]) "a" ≠ some (Json.arr es ps)) :=
  c10_scalar_prefix_replaced (Json.obj [("a", Json.str "x"), ("b", Json.num 1)])
    "a" "c" [] (Json.str "v") (by simp [isObjLike])
    (by
      intro c h
      simp [jsGet, lookupField] at h
      rw [← h]
      rfl)

mutual

/-- `flattenObjectKeys` from `services/translationService.ts`: walk an
object, descending into plain (non-null, non-array) objects with
dot-concatenated prefixes and emitting every other value as a leaf path.
The program only ever applies it to parsed JSON objects. -/
def flattenObjectKeys : Json → String → List String
  | Json.obj fields, pre => flattenFields fields pre
  | _, _ => []

/-- The `Object.keys(obj).reduce` body of `flattenObjectKeys`, one field
at a time in insertion order. -/
def flattenFields : List (String × Json) → String → List String
  | [], _ => []
  | (key, v) :: rest, pre =>
      (match v with
       | Json.obj fs =>
           flattenObjectKeys (Json.obj fs) ((if pre.length > 0 then pre ++ "." else "") ++ key)
       | _ => [(if pre.length > 0 then pre ++ "." else "") ++ key]) ++ flattenFields rest pre

end

mutual

/-- The number of leaves of a JSON value, where a leaf is anything that is
not a plain object (arrays included). -/
def countLeaves : Json → Nat
  | Json.obj fields => countLeavesFields fields
  | _ => 1

def countLeavesFields : List (String × Json) → Nat
  | [] => 0
  | (_, v) :: rest => countLeaves v + countLeavesFields rest

end

theorem flattenFields_length (fs : List (String × Json)) (pre : String) :
    (flattenFields fs pre).length = countLeavesFields fs := by
  cases fs with
  | nil => rfl
  | cons p rest =>
      obtain ⟨k, v⟩ := p
      cases v with
      | obj gf =>
          have h1 := flattenFields_length gf ((if pre.length > 0 then pre ++ "." else "") ++ k)
          have h2 := flattenFields_length rest pre
          simp [flattenFields, flattenObjectKeys, countLeavesFields, countLeaves, h1, h2]
      | arr es ps =>
          simp [flattenFields, countLeavesFields, countLeaves, flattenFields_length rest pre]
          omega
      | null =>
          simp [flattenFields, countLeavesFields, countLeaves, flattenFields_length rest pre]
          omega
      | bool b =>
          simp [flattenFields, countLeavesFields, countLeaves, flattenFields_length rest pre]
          omega
      | num n =>
          simp [flattenFields, countLeavesFields, countLeaves, flattenFields_length rest pre]
          omega
      | str s =>
          simp [flattenFields, countLeavesFields, countLeaves, flattenFields_length rest pre]
          omega
termination_by sizeOf fs

/-- C9.  `flattenObjectKeys` emits exactly one dot-joined path per leaf of
a nested object (first conjunct: its length is the number of non-object
leaves), treats arrays as leaves rather than descending into them (second
conjunct), and descends into nested objects with `.`-concatenated
prefixes (third conjunct). -/
theorem c9_flatten_counts_leaves :
    (∀ (fields : List (String × Json)) (pre : String),
        (flattenObjectKeys (Json.obj fields) pre).length = countLeaves (Json.obj fields))
    ∧ (∀ (pre k : String) (es : List Json) (ps rest : List (String × Json)),
        flattenFields ((k, Json.arr es ps) :: rest) pre
          = ((if pre.length > 0 then pre ++ "." else "") ++ k) :: flattenFields rest pre)
    ∧ (∀ (pre k : String) (gf rest : List (String × Json)),
        flattenFields ((k, Json.obj gf) :: rest) pre
          = flattenObjectKeys (Json.obj gf) ((if pre.length > 0 then pre ++ "." else "") ++ k)
              ++ flattenFields rest pre) :=
  ⟨fun fields pre => flattenFields_length fields pre,
   fun _ _ _ _ _ => rfl,
   fun _ _ _ _ => rfl⟩

/-- One uploaded language file: its name (language identifier) and parsed
JSON data. -/
structure TranslationFile where
  name : String
  data : Json

/-- `polishFileFinder` from `services/aiService.ts`: the name,
lower-cased, contains `"pl"` or `"polish"`. -/
def polishFileFinder (name : String) : Bool :=
  jsIncludes (jsToLowerCase name) "pl" || jsIncludes (jsToLowerCase name) "polish"

/-- The English-file predicate used throughout
(`f.name.toLowerCase().includes("en") || … .includes("english")`). -/
def englishFileFinder (name : String) : Bool :=
  jsIncludes (jsToLowerCase name) "en" || jsIncludes (jsToLowerCase name) "english"

/-- `files.find(f => … "pl" … || … "polish" …)`: resolve the
source-of-truth (secondary) reference file. -/
def findPolishFile (files : List TranslationFile) : Option TranslationFile :=
  files.find? (fun f => polishFileFinder f.name)

/-- `files.find(f => … "en" … || … "english" …)`: resolve the primary
reference file. -/
def findEnglishFile (files : List TranslationFile) : Option TranslationFile :=
  files.find? (fun f => englishFileFinder f.name)

/-- `files.filter(f => f.name !== polishFile.name && f.name !== englishFile?.name)`:
the remaining files in their original order (comparison with an absent
English file is vacuously true, as `undefined` equals no name). -/
def otherFiles (files : List TranslationFile) (polish : TranslationFile)
    (english : Option TranslationFile) : List TranslationFile :=
  files.filter (fun f =>
    !(f.name == polish.name)
      && (match english with
          | some e => !(f.name == e.name)
          | none => true))

theorem find?_eq_head?_dropWhile {α : Type} (p : α → Bool) (l : List α) :
    l.find? p = (l.dropWhile (fun a => !p a)).head? := by
  induction l with
  | nil => rfl
  | cons a rest ih =>
      by_cases h : p a = true
      · simp [List.find?_cons, List.dropWhile_cons, h]
      · simp only [Bool.not_eq_true] at h
        simp [List.find?_cons, List.dropWhile_cons, h, ih]

/-- C2.  Reference resolution: the primary reference is the first file
whose lower-cased name contains `"en"` or `"english"` (conjunct 1: the
find is the head of the list after dropping all non-matching files, hence
`none` exactly when no name matches), the source-of-truth reference is the
first file whose lower-cased name contains `"pl"` or `"polish"`
(conjunct 2), the remaining files keep their original order (conjunct 3:
they form a sublist of the input), and on files named
`["en", "pl", "de", "fr"]` the primary is `"en"`, the secondary is `"pl"`
and the others are `["de", "fr"]` in that order (conjuncts 4–6). -/
theorem c2_reference_resolution :
    (∀ files : List TranslationFile,
        findEnglishFile files
          = (files.dropWhile (fun f => !englishFileFinder f.name)).head?)
    ∧ (∀ files : List TranslationFile,
        findPolishFile files
          = (files.dropWhile (fun f => !polishFileFinder f.name)).head?)
    ∧ (∀ (files : List TranslationFile) (polish : TranslationFile)
          (english : Option TranslationFile),
        (otherFiles files polish english).Sublist files)
    ∧ findEnglishFile
        [⟨"en", Json.null⟩, ⟨"pl", Json.null⟩, ⟨"de", Json.null⟩, ⟨"fr", Json.null⟩]
        = some ⟨"en", Json.null⟩
    ∧ findPolishFile
        [⟨"en", Json.null⟩, ⟨"pl", Json.null⟩, ⟨"de", Json.null⟩, ⟨"fr", Json.null⟩]
        = some ⟨"pl", Json.null⟩
    ∧ otherFiles
        [⟨"en", Json.null⟩, ⟨"pl", Json.null⟩, ⟨"de", Json.null⟩, ⟨"fr", Json.null⟩]
        ⟨"pl", Json.null⟩ (some ⟨"en", Json.null⟩)
        = [⟨"de", Json.null⟩, ⟨"fr", Json.null⟩] :=
  ⟨fun files => find?_eq_head?_dropWhile _ files,
   fun files => find?_eq_head?_dropWhile _ files,
   fun files _ _ => List.filter_sublist files,
   rfl, rfl, rfl⟩

/-- Escape one string for a JSON string literal (the characters that occur
in the program's data; the rare sub-0x20 control characters are outside
the abstraction). -/
def escapeChars : List Char → List Char
  | [] => []
  | c :: cs =>
      (if c = '"' then ['\\', '"']
       else if c = '\\' then ['\\', '\\']
       else if c = '\n' then ['\\', 'n']
       else if c = '\t' then ['\\', 't']
       else if c = '\r' then ['\\', 'r']
       else [c]) ++ escapeChars cs

/-- A JSON string literal with quotes, as `JSON.stringify` prints it. -/
def quoteJson (s : String) : String :=
  "\"" ++ String.mk (escapeChars s.data) ++ "\""

/-- `n` levels of the two-space indentation of `JSON.stringify(_, null, 2)`. -/
def indentStr : Nat → String
  | 0 => ""
  | n + 1 => "  " ++ indentStr n

mutual

/-- `JSON.stringify(data, null, 2)` at nesting level `lvl`: empty
composites print as `{}`/`[]`, non-empty ones put every entry on its own
indented line. -/
def stringifyVal : Json → Nat → String
  | Json.null, _ => "null"
  | Json.bool b, _ => if b then "true" else "false"
  | Json.num n, _ => toString n
  | Json.str s, _ => quoteJson s
  | Json.arr [] _, _ => "[]"
  | Json.arr (e :: es) _, lvl =>
      "[\n" ++ stringifyElems (e :: es) (lvl + 1) ++ "\n" ++ indentStr lvl ++ "]"
  | Json.obj [], _ => "\x7b\x7d"
  | Json.obj (f :: fs), lvl =>
      "\x7b\n" ++ stringifyFields (f :: fs) (lvl + 1) ++ "\n" ++ indentStr lvl ++ "\x7d"

/-- The comma-and-newline separated element lines of a non-empty array. -/
def stringifyElems : List Json → Nat → String
  | [], _ => ""
  | [e], lvl => indentStr lvl ++ stringifyVal e lvl
  | e :: e2 :: rest, lvl =>
      indentStr lvl ++ stringifyVal e lvl ++ ",\n" ++ stringifyElems (e2 :: rest) lvl

/-- The comma-and-newline separated `"key": value` lines of a non-empty
object. -/
def stringifyFields : List (String × Json) → Nat → String
  | [], _ => ""
  | [(k, v)], lvl => indentStr lvl ++ quoteJson k ++ ": " ++ stringifyVal v lvl
  | (k, v) :: f2 :: rest, lvl =>
      indentStr lvl ++ quoteJson k ++ ": " ++ stringifyVal v lvl ++ ",\n"
        ++ stringifyFields (f2 :: rest) lvl

end

/-- JavaScript truthiness of a value (`!jsonData`). -/
def jsFalsy : Json → Bool
  | Json.null => true
  | Json.bool b => !b
  | Json.num n => n == 0
  | Json.str s => s == ""
  | _ => false

/-- The whitespace characters of the regex class `\s` that can occur in
the pretty-printed lines. -/
def isSpaceChar (c : Char) : Bool :=
  c = ' ' || c = '\t' || c = '\n' || c = '\r'

/-- One line matches the regex `^\s*"<escapedKey>":` — after optional
leading whitespace the line starts with the quoted key and a colon.  (The
source escapes the key so the regex matches it literally; the model
therefore compares it literally.) -/
def lineMatchesKey (key line : String) : Bool :=
  ("\"" ++ key ++ "\":").data.isPrefixOf (line.data.dropWhile isSpaceChar)

/-- The lines of the 2-space pretty-printed form of `data`, as
`getLineNumber` splits them. -/
def linesOf (data : Json) : List String :=
  jsSplit (stringifyVal data 0) '\n'

/-- The last dot-separated segment of a key path
(`keyParts[keyParts.length - 1]`). -/
def lastSegment (keyPath : String) : String :=
  (jsSplit keyPath '.').getLastD ""

/-- `getLineNumber` from `services/translationService.ts`. -/
def getLineNumber (jsonData : Json) (keyPath : String) : Option Nat :=
  if jsFalsy jsonData || keyPath = "" then none
  else
    match (linesOf jsonData).findIdx? (fun line => lineMatchesKey (lastSegment keyPath) line) with
    | some i => some (i + 1)
    | none => none

theorem findIdx?_first {α : Type} (p : α → Bool) (l : List α) (i : Nat) :
    l.findIdx? p = some i
      ↔ (l[i]?.any p = true ∧ (l.take i).all (fun a => !p a) = true) := by
  induction l generalizing i with
  | nil => simp
  | cons x xs ih =>
      rw [List.findIdx?_cons, List.findIdx?_succ]
      by_cases h : p x = true
      · cases i with
        | zero => simp [h]
        | succ j => simp [h]
      · simp only [Bool.not_eq_true] at h
        cases i with
        | zero => simp [h]
        | succ j => simp [h, ih]

/-- C8.  `getLineNumber` pretty-prints the data as 2-space-indented JSON,
splits it into lines, and returns the 1-based index of the first line that
starts (after optional whitespace) with the quoted last path segment and a
colon — `some (i+1)` exactly when line `i` matches and no earlier line
does (conjunct 1), `none` exactly when no line matches (conjunct 2); only
the last segment of the path is consulted (conjunct 3), so the first
textual occurrence wins even for identically-named keys under different
parents. -/
theorem c8_getLineNumber_first_match (data : Json) (path : String)
    (hdata : jsFalsy data = false) (hpath : path ≠ "") :
    (∀ i : Nat,
      getLineNumber data path = some (i + 1)
        ↔ ((linesOf data)[i]?.any (fun line => lineMatchesKey (lastSegment path) line) = true
            ∧ ((linesOf data).take i).all
                (fun line => !lineMatchesKey (lastSegment path) line) = true))
    ∧ (getLineNumber data path = none
        ↔ ∀ line ∈ linesOf data, lineMatchesKey (lastSegment path) line = false)
    ∧ (∀ path2 : String, path2 ≠ "" → lastSegment path2 = lastSegment path →
        getLineNumber data path2 = getLineNumber data path) := by
  refine ⟨fun i => ?_, ?_, fun path2 h2 hlast => ?_⟩
  · rw [getLineNumber, if_neg (by simp [hdata, hpath])]
    constructor
    · intro h
      cases hfind : (linesOf data).findIdx?
          (fun line => lineMatchesKey (lastSegment path) line) with
      | none => rw [hfind] at h; exact absurd h (by simp)
      | some j =>
          rw [hfind] at h
          have hji : j = i := by
            have := Option.some.inj h
            omega
          subst hji
          exact (findIdx?_first _ _ _).mp hfind
    · intro h
      rw [(findIdx?_first _ _ _).mpr h]
  · rw [getLineNumber, if_neg (by simp [hdata, hpath])]
    cases hfind : (linesOf data).findIdx?
        (fun line => lineMatchesKey (lastSegment path) line) with
    | none =>
        simp only [List.findIdx?_eq_none_iff] at hfind
        simpa using hfind
    | some j =>
        constructor
        · intro h; exact absurd h (by simp)
        · intro h
          have : (linesOf data).findIdx?
              (fun line => lineMatchesKey (lastSegment path) line) = none := by
            rw [List.findIdx?_eq_none_iff]
            intro x hx
            exact h x hx
          rw [this] at hfind
          exact absurd hfind (by simp)
  · rw [getLineNumber, getLineNumber, if_neg (by simp [hdata, h2]),
      if_neg (by simp [hdata, hpath]), hlast]

/-- Witness for C8: for `{a := {b := 1}, c := 2}` the path `a.b` resolves
to line 3 (the line `    "b": 1`), the missing path `x.y` resolves to
`none`, and in `{a := {b := 1}, q := {b := 2}}` the path `q.b` also
resolves to line 3 — the first textual occurrence of a `"b":` line, which
belongs to `a`, not `q`. -/
theorem c8_witness :
    getLineNumber (Json.obj [("a", Json.obj [("b", Json.num 1)]), ("c", Json.num 2)]) "a.b"
      = some 3
    ∧ (linesOf (Json.obj [("a", Json.obj [("b", Json.num 1)]), ("c", Json.num 2)]))[2]?
      = some "    \"b\": 1"
    ∧ getLineNumber (Json.obj [("a", Json.obj [("b", Json.num 1)]), ("c", Json.num 2)]) "x.y"
      = none
    ∧ getLineNumber
        (Json.obj [("a", Json.obj [("b", Json.num 1)]), ("q", Json.obj [("b", Json.num 2)])])
        "q.b" = some 3 := by
  have h1 := c8_getLineNumber_first_match
    (Json.obj [("a", Json.obj [("b", Json.num 1)]), ("c", Json.num 2)]) "a.b"
    (by decide) (by decide)
  have h2 := c8_getLineNumber_first_match
    (Json.obj [("a", Json.obj [("b", Json.num 1)]), ("c", Json.num 2)]) "x.y"
    (by decide) (by decide)
  have h3 := c8_getLineNumber_first_match
    (Json.obj [("a", Json.obj [("b", Json.num 1)]), ("q", Json.obj [("b", Json.num 2)])]) "q.b"
    (by decide) (by decide)
  refine ⟨(h1.1 2).mpr (by decide), by decide, h2.2.1.mpr (by decide), (h3.1 2).mpr (by decide)⟩

/-- One `{lang, value}` pair handed to the prompt builders. -/
structure LangValue where
  lang : String
  value : String

/-- One group-reference entry: the exemplar key and its translations. -/
structure GroupRef where
  key : String
  translations : List LangValue

/-- `Record<string, Record<string, string>>`: per key path, the last
user-approved value per language. -/
def TranslationHistory : Type := List (String × List (String × String))

/-- `Record<string, Record<string, string>>`: per source term, the
mandated translation per language. -/
def Glossary : Type := List (String × List (String × String))

/-- `array.join("\n")`. -/
def joinLines : List String → String
  | [] => ""
  | [s] => s
  | s :: s2 :: rest => s ++ "\n" ++ joinLines (s2 :: rest)

/-- `x || "N/A"` on a string. -/
def orNA (s : String) : String := if s = "" then "N/A" else s

/-- `- Language: …, Translation: "…"`. -/
def translationLine (t : LangValue) : String :=
  "- Language: " ++ t.lang ++ ", Translation: \"" ++ t.value ++ "\""

/-- `[polishTranslation, ...(englishTranslation ? […] : []), ...translationsToReview]`
rendered one per line. -/
def translationsStringOf (pol : LangValue) (eng : Option LangValue)
    (reviews : List LangValue) : String :=
  joinLines ((pol :: ((match eng with | some e => [e] | none => []) ++ reviews)).map
    translationLine)

/-- One group-reference bullet: the Polish value of the exemplar key is
looked up with `polishFileFinder` and defaults to `N/A`. -/
def referenceEntry (ref : GroupRef) : String :=
  "- Klucz \x27" ++ ref.key ++ "\x27 (wartość PL: \""
    ++ (match ref.translations.find? (fun t => polishFileFinder t.lang) with
        | some t => orNA t.value
        | none => "N/A")
    ++ "\") jest absolutnym wzorcem dla tego zadania. Terminologia i frazowanie z tego klucza muszą być ściśle stosowane."

/-- The `groupReferenceString` section (identical in
`services/aiService.ts` and its glossary-carrying variant): empty unless a
non-empty list of group references is supplied. -/
def groupReferenceString (grefs : Option (List GroupRef)) : String :=
  match grefs with
  | some refs =>
      if refs.length > 0 then
        "\n**Wzorce Kontekstowe Grupy (PRIORYTET KRYTYCZNY):**\nPoniższe klucze i ich wartości zostały oznaczone przez użytkownika jako absolutny wzorzec dla tej grupy. Mają one najwyższy możliwy priorytet, ponad Historią i Glosariuszem. Każde odstępstwo od terminologii użytej w tych wzorcach jest błędem krytycznym.\n"
          ++ joinLines (refs.map referenceEntry) ++ "\n"
      else ""
  | none => ""

/-- One history bullet (`Object.entries(keyHistory).map(…)`). -/
def historyEntryLine (e : String × String) : String :=
  "- Dla języka \x27" ++ e.1
    ++ "\x27, ostateczna, zatwierdzona przez użytkownika wersja to: \"" ++ e.2 ++ "\"."

/-- The `historyContextString` section of `services/aiService.ts`: present
when the key has a recorded, non-empty history entry.  (This variant of
the source computes `historyEntries` only for the emptiness test and does
not interpolate them into the section text.) -/
def historyContextString (hist : TranslationHistory) (translationKey : String) : String :=
  match lookupField hist translationKey with
  | none => ""
  | some keyHistory =>
      if joinLines (keyHistory.map historyEntryLine) = "" then ""
      else
        "\n**Historia Zmian (NAJWYŻSZY PRIORYTET):**\nDla klucza \x27" ++ translationKey
          ++ "\x27, użytkownik ręcznie zapisał poniższe wersje. Są to absolutnie ostateczne i poprawne tłumaczenia, które mają pierwszeństwo przed wszystkimi innymi regułami. Każde odstępstwo od tej historii jest błędem krytycznym.\n"

/-- The fixed text of the `services/aiService.ts` analysis prompt before
the policy sections. -/
def analysisPromptHead : String :=
  "Jesteś światowej klasy ekspertem lingwistycznym, specjalizującym się w lokalizacji oprogramowania. Twoja praca wymaga absolutnej precyzji. Twoje odpowiedzi (w polach \x27feedback\x27 i \x27suggestion\x27) MUSZĄ być w języku polskim.\n\n**KRYTYCZNE INSTRUKCJE ZADANIA (NAJWYŻSZY PRIORYTET):**\n1.  **ABSOLUTNE ŹRÓDŁO PRAWDY:** Tłumaczenie w języku polskim (PL) jest **jedynym i ostatecznym** punktem odniesienia. Wszystkie inne tłumaczenia, włącznie z angielskim, muszą być oceniane **WYŁĄCZNIE** pod kątem zgodności z wersją polską pod względem znaczenia, tonu i kontekstu.\n2.  **ROLA JĘZYKA ANGIELSKIEGO:** Tłumaczenie angielskie (EN) służy **jedynie jako dodatkowy kontekst**, który może pomóc w zrozumieniu intencji, ale **NIGDY** nie może być traktowane jako wzorzec, jeśli jest niezgodne z wersją polską.\n3.  **ZAKAZ INNYCH REFERENCJI:** Pod żadnym pozorem nie używaj żadnego innego języka (np. włoskiego, niemieckiego, hiszpańskiego) jako punktu odniesienia w swojej ocenie. Twoja analiza musi być zakotwiczona w polskim tekście. Każde odwołanie do innego języka jako wzorca jest **błędem krytycznym**.\n\nPoza powyższymi regułami, obowiązuje następująca hierarchia ważności informacji:\n1.  **Wzorce Kontekstowe Grupy:** Klucze wzorcowe zdefiniowane przez użytkownika. Mają one bezwzględny priorytet.\n2.  **Historia Zmian:** Ostateczne, ręcznie zapisane przez użytkownika wersje.\n3.  **Źródło Prawdy (Polski):** Jak zdefiniowano w krytycznych instrukcjach.\n4.  **Kontekst Ogólny:** Opis dostarczony przez użytkownika.\n\n"

/-- The text of the `services/aiService.ts` analysis prompt after the
policy sections. -/
def analysisPromptTail (context : String) (pol : LangValue) (eng : Option LangValue)
    (translationsString : String) : String :=
  "\n\n**ABSOLUTNE ŹRÓDŁO PRAWDY (POLSKI - " ++ pol.lang ++ "):**\n\"" ++ pol.value
    ++ "\"\n\n**DODATKOWY PUNKT ODNIESIENIA (ANGIELSKI - "
    ++ (match eng with | some e => orNA e.lang | none => "N/A") ++ "):**\n\""
    ++ (match eng with | some e => orNA e.value | none => "N/A")
    ++ "\"\n\n**Kontekst Ogólny:** \"" ++ context
    ++ "\"\n\n**Zadanie:**\nDla każdego tłumaczenia z listy poniżej, wykonaj rygorystyczną ocenę, ściśle trzymając się podanych instrukcji. Porównaj każde tłumaczenie z **polską wersją referencyjną**.\n\n**W swojej ocenie, dla każdego języka:**\n1.  **\x27evaluation\x27**: Użyj jednej z wartości: \x27Good\x27, \x27Needs Improvement\x27, lub \x27Incorrect\x27. Wartości muszą pozostać w języku angielskim.\n2.  **\x27feedback\x27**:\n    -   Napisz zwięzłą i szczegółową opinię w języku polskim, która uzasadnia Twoją ocenę (\x27evaluation\x27). Użyj podstawowego markdownu (np. **pogrubienie**).\n    -   Skup się wyłącznie na jakości tłumaczenia.\n    -   **Nie wspominaj w komentarzu o \"Glosariuszu\", \"Historii Zmian\" ani o \"Wzorcach Grupy\".** Twoja ocena musi być oparta na tych regułach, ale uzasadnienie powinno dotyczyć samego tekstu.\n3.  **\x27suggestion\x27**:\n    -   Jeśli ocena to \x27Needs Improvement\x27 lub \x27Incorrect\x27, podaj **TYLKO I WYŁĄCZNIE sugerowany tekst tłumaczenia**.\n    -   Pole \x27suggestion\x27 nie może zawierać żadnych dodatkowych opisów, cudzysłowów ani uzasadnień.\n    -   Jeśli tłumaczenie jest \x27Good\x27, pomiń pole \x27suggestion\x27.\n\n**Tłumaczenia do oceny:**\n"
    ++ translationsString
    ++ "\n\nZwróć odpowiedź w ustrukturyzowanym formacie JSON, zgodnie z podanym schematem."

/-- `buildAnalysisPrompt` from `services/aiService.ts`: the fixed head,
then the group-reference section, a newline, the history section, and the
remainder of the template. -/
def buildAnalysisPrompt (translationKey context : String) (polishTranslation : LangValue)
    (englishTranslation : Option LangValue) (translationsToReview : List LangValue)
    (translationHistory : TranslationHistory)
    (groupReferenceTranslations : Option (List GroupRef)) : String :=
  analysisPromptHead
    ++ groupReferenceString groupReferenceTranslations
    ++ "\n"
    ++ historyContextString translationHistory translationKey
    ++ analysisPromptTail context polishTranslation englishTranslation
        (translationsStringOf polishTranslation englishTranslation translationsToReview)

/-- The `historyContextString` section of the glossary-carrying variant
(`src/unnamed/part_004`): same trigger, but the section interpolates the
per-language history bullets and mentions the glossary. -/
def historyContextStringG (hist : TranslationHistory) (translationKey : String) : String :=
  match lookupField hist translationKey with
  | none => ""
  | some keyHistory =>
      if joinLines (keyHistory.map historyEntryLine) = "" then ""
      else
        "\n**Historia Zmian (NAJWYŻSZY PRIORYTET):**\nDla klucza \x27" ++ translationKey
          ++ "\x27, użytkownik ręcznie zapisał poniższe wersje. Są to absolutnie ostateczne i poprawne tłumaczenia, które mają pierwszeństwo przed wszystkimi innymi regułami, włączając glosariusz. Każde odstępstwo od tej historii jest błędem krytycznym.\n"
          ++ joinLines (keyHistory.map historyEntryLine) ++ "\n"

/-- One glossary block: the source term with its mandatory per-language
rules. -/
def glossaryEntry (e : String × List (String × String)) : String :=
  "- Dla terminu źródłowego \"" ++ e.1 ++ "\":\n"
    ++ joinLines (e.2.map (fun r =>
        "  - W języku \x27" ++ r.1 ++ "\x27, termin ten MUSI być tłumaczony jako \""
          ++ r.2 ++ "\"."))

/-- The `glossaryString` section of the glossary-carrying variant: empty
unless the glossary has entries. -/
def glossaryString (globalContext : Glossary) : String :=
  match globalContext with
  | [] => ""
  | e :: rest =>
      "\n**Glosariusz Terminologiczny (Wysoki Priorytet):**\nPoniższe reguły są obowiązkowe. Mają one pierwszeństwo przed ogólnym kontekstem, ale niższy priorytet niż \x27Wzorce Kontekstowe\x27 i \x27Historia Zmian\x27.\n"
        ++ joinLines ((e :: rest).map glossaryEntry) ++ "\n"

/-- The fixed head of the glossary-carrying prompt variant
(`src/unnamed/part_004`, lines 99–106). -/
def analysisPromptHeadG : String :=
  "Jesteś ekspertem lingwistą i specjalistą od lokalizacji. Twoim zadaniem jest szczegółowa ocena tłumaczeń dla interfejsu aplikacji. Twoje odpowiedzi (w polach \x27feedback\x27 i \x27suggestion\x27) MUSZĄ być w języku polskim.\n\n**Hierarchia Ważności Informacji (od najważniejszej):**\n1.  **Wzorce Kontekstowe Grupy:** Klucze wzorcowe zdefiniowane przez użytkownika dla tej grupy.\n2.  **Historia Zmian:** Ostateczne, ręcznie zapisane przez użytkownika wersje.\n3.  **Glosariusz Terminologiczny:** Zdefiniowane tłumaczenia dla konkretnych terminów.\n4.  **Źródła Prawdy (Referencje):** Tłumaczenia w języku angielskim i polskim.\n5.  **Kontekst Ogólny:** Opis dostarczony przez użytkownika.\n\n"

/-- The tail of the glossary-carrying prompt variant after the three
policy sections. -/
def analysisPromptTailG (context : String) (pol : LangValue) (eng : Option LangValue)
    (translationsString : String) : String :=
  "\n\n**Źródła Prawdy (punkty odniesienia):**\n- **Pierwszorzędne (angielski, "
    ++ (match eng with | some e => orNA e.lang | none => "N/A") ++ "):** \""
    ++ (match eng with | some e => orNA e.value | none => "N/A")
    ++ "\"\n- **Drugorzędne (polski, " ++ pol.lang ++ "):** \"" ++ pol.value
    ++ "\"\n\n**Kontekst Ogólny:** \"" ++ context
    ++ "\"\n\n**Zadanie:**\nDla każdego tłumaczenia z listy poniżej (włączając w to polski i angielski), oceń je, ściśle przestrzegając podanej hierarchii ważności. Pamiętaj, że nawet tłumaczenia referencyjne mogą zawierać błędy, które należy zidentyfikować i poprawić.\n\n**W swojej ocenie, dla każdego języka:**\n1.  **\x27evaluation\x27**: Użyj jednej z wartości: \x27Good\x27, \x27Needs Improvement\x27, lub \x27Incorrect\x27. Wartości muszą pozostać w języku angielskim.\n2.  **\x27feedback\x27**:\n    -   Napisz zwięzłą i szczegółową opinię w języku polskim, która uzasadnia Twoją ocenę (\x27evaluation\x27). Użyj podstawowego markdownu (np. **pogrubienie**).\n    -   Skup się wyłącznie na jakości tłumaczenia: jego poprawności gramatycznej, stylistycznej i zgodności z ogólnym kontekstem.\n    -   **Nie wspominaj w komentarzu o \"Glosariuszu\", \"Historii Zmian\" ani o \"Wzorcach Grupy\".** Twoja ocena musi być oparta na tych regułach, ale uzasadnienie powinno dotyczyć samego tekstu. Na przykład, zamiast pisać \"Niezgodne z glosariuszem\", napisz \"Słowo \x27Zapisz\x27 jest lepsze w tym kontekście niż \x27Archiwizuj\x27\".\n3.  **\x27suggestion\x27**:\n    -   Jeśli ocena to \x27Needs Improvement\x27 lub \x27Incorrect\x27, podaj **TYLKO I WYŁĄCZNIE sugerowany tekst tłumaczenia**.\n    -   Pole \x27suggestion\x27 nie może zawierać żadnych dodatkowych opisów, cudzysłowów ani uzasadnień.\n    -   Jeśli tłumaczenie jest \x27Good\x27, pomiń pole \x27suggestion\x27.\n\n**Tłumaczenia do oceny:**\n"
    ++ translationsString
    ++ "\n\nZwróć odpowiedź w ustrukturyzowanym formacie JSON, zgodnie z podanym schematem."

/-- `buildAnalysisPrompt` of the glossary-carrying variant
(`src/unnamed/part_004`): head, group-reference section, newline, history
section, newline, glossary section, tail. -/
def buildAnalysisPromptG (translationKey context : String) (polishTranslation : LangValue)
    (englishTranslation : Option LangValue) (translationsToReview : List LangValue)
    (globalContext : Glossary) (translationHistory : TranslationHistory)
    (groupReferenceTranslations : Option (List GroupRef)) : String :=
  analysisPromptHeadG
    ++ groupReferenceString groupReferenceTranslations
    ++ "\n"
    ++ historyContextStringG translationHistory translationKey
    ++ "\n"
    ++ glossaryString globalContext
    ++ analysisPromptTailG context polishTranslation englishTranslation
        (translationsStringOf polishTranslation englishTranslation translationsToReview)

theorem ne_empty_of_data_ne_nil (s : String) (h : s.data ≠ []) : s ≠ "" := by
  intro he
  rw [he] at h
  exact h rfl

theorem data_append_ne_nil_left (a b : String) (h : a.data ≠ []) : (a ++ b).data ≠ [] := by
  rw [String.data_append]
  intro he
  exact h (List.append_eq_nil.mp he).1

theorem joinLines_cons_data_ne_nil (s : String) (rest : List String) (h : s.data ≠ []) :
    (joinLines (s :: rest)).data ≠ [] := by
  cases rest with
  | nil => simpa [joinLines] using h
  | cons s2 rest2 => exact data_append_ne_nil_left _ _ (data_append_ne_nil_left _ _ h)

theorem groupReferenceString_ne_empty (r : GroupRef) (rs : List GroupRef) :
    groupReferenceString (some (r :: rs)) ≠ "" := by
  apply ne_empty_of_data_ne_nil
  rw [groupReferenceString, if_pos (by simp)]
  exact data_append_ne_nil_left _ _ (data_append_ne_nil_left _ _ (by decide))

theorem historyEntryLine_data_ne_nil (e : String × String) :
    (historyEntryLine e).data ≠ [] := by
  rw [historyEntryLine]
  exact data_append_ne_nil_left _ _ (data_append_ne_nil_left _ _
    (data_append_ne_nil_left _ _ (data_append_ne_nil_left _ _ (by decide))))

theorem historyContextString_ne_empty (hist : TranslationHistory) (key : String)
    (m : List (String × String)) (hm : lookupField hist key = some m) (hne : m ≠ []) :
    historyContextString hist key ≠ "" := by
  obtain ⟨e, rest, rfl⟩ : ∃ e rest, m = e :: rest := by
    cases m with
    | nil => exact absurd rfl hne
    | cons e rest => exact ⟨e, rest, rfl⟩
  apply ne_empty_of_data_ne_nil
  simp only [historyContextString, hm, List.map_cons]
  rw [if_neg (ne_empty_of_data_ne_nil _
    (joinLines_cons_data_ne_nil _ _ (historyEntryLine_data_ne_nil e)))]
  exact data_append_ne_nil_left _ _ (data_append_ne_nil_left _ _ (by decide))

theorem historyContextStringG_ne_empty (hist : TranslationHistory) (key : String)
    (m : List (String × String)) (hm : lookupField hist key = some m) (hne : m ≠ []) :
    historyContextStringG hist key ≠ "" := by
  obtain ⟨e, rest, rfl⟩ : ∃ e rest, m = e :: rest := by
    cases m with
    | nil => exact absurd rfl hne
    | cons e rest => exact ⟨e, rest, rfl⟩
  apply ne_empty_of_data_ne_nil
  simp only [historyContextStringG, hm, List.map_cons]
  rw [if_neg (ne_empty_of_data_ne_nil _
    (joinLines_cons_data_ne_nil _ _ (historyEntryLine_data_ne_nil e)))]
  exact data_append_ne_nil_left _ _ (data_append_ne_nil_left _ _
    (data_append_ne_nil_left _ _ (data_append_ne_nil_left _ _ (by decide))))

/-- C3.  When a non-empty list of group-reference exemplars and a recorded
(non-empty) history entry for the analysed key are both supplied, the
analysis prompt of `services/aiService.ts` decomposes as
`pre ++ groupSection ++ mid ++ historySection ++ post` with both sections
non-empty — the group-reference policy section occurs strictly before the
history policy section (its occurrence starts at `pre.length`, the history
section only after the non-empty group section).  In the variant that also
takes a glossary (`src/unnamed/part_004`), the glossary section moreover
appears after both. -/
theorem c3_prompt_section_order (translationKey context : String) (pol : LangValue)
    (eng : Option LangValue) (reviews : List LangValue) (g : Glossary)
    (hist : TranslationHistory) (r : GroupRef) (rs : List GroupRef)
    (m : List (String × String)) (hm : lookupField hist translationKey = some m)
    (hne : m ≠ []) :
    (∃ pre mid post,
      buildAnalysisPrompt translationKey context pol eng reviews hist (some (r :: rs))
        = pre ++ groupReferenceString (some (r :: rs)) ++ mid
            ++ historyContextString hist translationKey ++ post
      ∧ groupReferenceString (some (r :: rs)) ≠ ""
      ∧ historyContextString hist translationKey ≠ "")
    ∧ (∃ pre mid mid2 post,
      buildAnalysisPromptG translationKey context pol eng reviews g hist (some (r :: rs))
        = pre ++ groupReferenceString (some (r :: rs)) ++ mid
            ++ historyContextStringG hist translationKey ++ mid2
            ++ glossaryString g ++ post
      ∧ groupReferenceString (some (r :: rs)) ≠ ""
      ∧ historyContextStringG hist translationKey ≠ "") := by
  constructor
  · exact ⟨analysisPromptHead, "\n",
      analysisPromptTail context pol eng (translationsStringOf pol eng reviews),
      rfl, groupReferenceString_ne_empty r rs,
      historyContextString_ne_empty hist translationKey m hm hne⟩
  · exact ⟨analysisPromptHeadG, "\n", "\n",
      analysisPromptTailG context pol eng (translationsStringOf pol eng reviews),
      rfl, groupReferenceString_ne_empty r rs,
      historyContextStringG_ne_empty hist translationKey m hm hne⟩

/-- Witness for C3 at a concrete input: one group reference and a recorded
history entry for key `a`. -/
theorem c3_witness :
    (∃ pre mid post,
      buildAnalysisPrompt "a" "ctx" ⟨"pl", "Zapisz"⟩ (some ⟨"en", "Save"⟩)
          [⟨"de", "Speichern"⟩] [("a", [("de", "Sichern")])]
          (some [⟨"k0", [⟨"pl", "Wzorzec"⟩]⟩])
        = pre ++ groupReferenceString (some [⟨"k0", [⟨"pl", "Wzorzec"⟩]⟩]) ++ mid
            ++ historyContextString [("a", [("de", "Sichern")])] "a" ++ post
      ∧ groupReferenceString (some [⟨"k0", [⟨"pl", "Wzorzec"⟩]⟩]) ≠ ""
      ∧ historyContextString [("a", [("de", "Sichern")])] "a" ≠ "")
    ∧ (∃ pre mid mid2 post,
      buildAnalysisPromptG "a" "ctx" ⟨"pl", "Zapisz"⟩ (some ⟨"en", "Save"⟩)
          [⟨"de", "Speichern"⟩] [("Zapisz", [("de", "Speichern")])]
          [("a", [("de", "Sichern")])] (some [⟨"k0", [⟨"pl", "Wzorzec"⟩]⟩])
        = pre ++ groupReferenceString (some [⟨"k0", [⟨"pl", "Wzorzec"⟩]⟩]) ++ mid
            ++ historyContextStringG [("a", [("de", "Sichern")])] "a" ++ mid2
            ++ glossaryString [("Zapisz", [("de", "Speichern")])] ++ post
      ∧ groupReferenceString (some [⟨"k0", [⟨"pl", "Wzorzec"⟩]⟩]) ≠ ""
      ∧ historyContextStringG [("a", [("de", "Sichern")])] "a" ≠ "") :=
  c3_prompt_section_order "a" "ctx" ⟨"pl", "Zapisz"⟩ (some ⟨"en", "Save"⟩)
    [⟨"de", "Speichern"⟩] [("Zapisz", [("de", "Speichern")])]
    [("a", [("de", "Sichern")])] ⟨"k0", [⟨"pl", "Wzorzec"⟩]⟩ []
    [("de", "Sichern")] (by rw [lookupField, if_pos rfl]) (by simp)

/-- One per-language verdict produced by the model
(`AnalysisItem` from `types.ts`; `evaluation` ranges over the literal
strings `Good`, `Needs Improvement`, `Incorrect`). -/
structure AnalysisItem where
  language : String
  evaluation : String
  feedback : String
  suggestion : Option String

/-- `AIAnalysisResult` from `types.ts`. -/
structure AIAnalysisResult where
  analysis : List AnalysisItem

/-- `handleUpdateValueAndHistory` from `App.tsx`: rebuild the file list
with the matching file pointing at `setValueByPath`-updated data, and
record the value in the history as
`{...prev, [key]: {...prev[key], [fileName]: newValue}}`. -/
def handleUpdateValueAndHistory (files : List TranslationFile) (hist : TranslationHistory)
    (fileName key : String) (newValue : String) :
    List TranslationFile × TranslationHistory :=
  (files.map (fun f =>
      if f.name = fileName then ⟨f.name, setValueByPath f.data key (Json.str newValue)⟩
      else f),
   insertField hist key (insertField ((lookupField hist key).getD []) fileName newValue))

/-- The `updateAnalysisState` rewrite of `handleApplySuggestion`
(`src/unnamed/part_011`): the verdict of the applied language becomes
`Good` with the suggestion removed; other verdicts are untouched; an
absent result stays absent. -/
def updateAnalysisState (fileName : String) (res : Option AIAnalysisResult) :
    Option AIAnalysisResult :=
  res.map (fun r => ⟨r.analysis.map (fun item =>
    if item.language = fileName then
      AnalysisItem.mk item.language "Good" item.feedback none
    else item)⟩)

/-- `handleApplySuggestion` from `src/unnamed/part_011` combined with the
`onUpdateValue` it calls (`handleUpdateValueAndHistory` from `App.tsx`):
write the suggestion into the file and the history exactly like a manual
edit, then optimistically rewrite the in-memory verdict. -/
def handleApplySuggestion (files : List TranslationFile) (hist : TranslationHistory)
    (res : Option AIAnalysisResult) (fileName translationKey suggestion : String) :
    List TranslationFile × TranslationHistory × Option AIAnalysisResult :=
  let p := handleUpdateValueAndHistory files hist fileName translationKey suggestion
  (p.1, p.2, updateAnalysisState fileName res)

/-- C7.  After `applySuggestion(lang, key, S)`: every file named `lang`
carries value `S` at path `key` (conjunct 1), the history records
`history[key][lang] = S` through the same handler a manual edit uses
(conjunct 2), and the in-memory verdict for `lang` is rewritten to
evaluation `Good` with its suggestion cleared (conjunct 3). -/
theorem c7_apply_suggestion_effects (files : List TranslationFile) (hist : TranslationHistory)
    (res : Option AIAnalysisResult) (lang key suggestion : String)
    (hdata : ∀ f ∈ files, f.name = lang → ∃ fs, f.data = Json.obj fs) :
    (∀ f2 ∈ (handleApplySuggestion files hist res lang key suggestion).1,
        f2.name = lang → getValueByPath f2.data key = some (Json.str suggestion))
    ∧ (∃ m, lookupField (handleApplySuggestion files hist res lang key suggestion).2.1 key
          = some m
        ∧ lookupField m lang = some suggestion)
    ∧ (∀ r, res = some r →
        ∃ r2, (handleApplySuggestion files hist res lang key suggestion).2.2 = some r2
          ∧ ∀ item ∈ r2.analysis, item.language = lang →
              item.evaluation = "Good" ∧ item.suggestion = none) := by
  refine ⟨?_, ?_, ?_⟩
  · intro f2 hf2 hname
    simp only [handleApplySuggestion, handleUpdateValueAndHistory, List.mem_map] at hf2
    obtain ⟨f, hf, rfl⟩ := hf2
    by_cases hn : f.name = lang
    · obtain ⟨fs, hfs⟩ := hdata f hf hn
      rw [if_pos hn]
      simpa using (by rw [hfs]; exact getValueByPath_setValueByPath fs key (Json.str suggestion))
    · rw [if_neg hn] at hname ⊢
      exact absurd hname hn
  · refine ⟨insertField ((lookupField hist key).getD []) lang suggestion, ?_, ?_⟩
    · simpa [handleApplySuggestion, handleUpdateValueAndHistory]
        using lookupField_insertField hist key _
    · exact lookupField_insertField _ lang suggestion
  · intro r hr
    subst hr
    refine ⟨_, rfl, ?_⟩
    intro item hitem hlang
    simp only [updateAnalysisState, Option.map_some, List.mem_map] at hitem hlang ⊢
    obtain ⟨item0, hmem0, rfl⟩ := hitem
    by_cases h0 : item0.language = lang
    · rw [if_pos h0]
      exact ⟨rfl, rfl⟩
    · rw [if_neg h0] at hlang ⊢
      exact absurd hlang h0

/-- Witness for C7: applying the suggestion `Sichern` for language `de`
and key `a` to a session with one German file, empty history, and an
`Incorrect` verdict. -/
theorem c7_witness :
    (∀ f2 ∈ (handleApplySuggestion [⟨"de", Json.obj [("a", Json.str "Speichern")]⟩] []
        (some ⟨[⟨"de", "Incorrect", "zle", some "Sichern"⟩]⟩) "de" "a" "Sichern").1,
        f2.name = "de" → getValueByPath f2.data "a" = some (Json.str "Sichern"))
    ∧ (∃ m, lookupField (handleApplySuggestion [⟨"de", Json.obj [("a", Json.str "Speichern")]⟩]
          [] (some ⟨[⟨"de", "Incorrect", "zle", some "Sichern"⟩]⟩) "de" "a" "Sichern").2.1 "a"
          = some m
        ∧ lookupField m "de" = some "Sichern")
    ∧ (∀ r, (some (AIAnalysisResult.mk [⟨"de", "Incorrect", "zle", some "Sichern"⟩])) = some r →
        ∃ r2, (handleApplySuggestion [⟨"de", Json.obj [("a", Json.str "Speichern")]⟩] []
            (some ⟨[⟨"de", "Incorrect", "zle", some "Sichern"⟩]⟩) "de" "a" "Sichern").2.2
          = some r2
          ∧ ∀ item ∈ r2.analysis, item.language = "de" →
              item.evaluation = "Good" ∧ item.suggestion = none) :=
  c7_apply_suggestion_effects [⟨"de", Json.obj [("a", Json.str "Speichern")]⟩] []
    (some ⟨[⟨"de", "Incorrect", "zle", some "Sichern"⟩]⟩) "de" "a" "Sichern"
    (by
      intro f hf _
      simp only [List.mem_singleton] at hf
      subst hf
      exact ⟨[("a", Json.str "Speichern")], rfl⟩)

/-- Update the binding of `key` in place with `f`, leaving other bindings
and the order untouched (a JavaScript property mutation on the mapped
object). -/
def updateField {α : Type} : List (String × α) → String → (α → α) → List (String × α)
  | [], _, _ => []
  | (k, v) :: rest, key, f =>
      if k = key then (k, f v) :: rest else (k, v) :: updateField rest key f

theorem lookupField_updateField_self {α : Type} (l : List (String × α)) (key : String)
    (f : α → α) : lookupField (updateField l key f) key = (lookupField l key).map f := by
  induction l with
  | nil => rfl
  | cons p rest ih =>
      by_cases h : p.1 = key
      · simp [updateField, lookupField, h]
      · simp [updateField, lookupField, h, ih]

theorem lookupField_updateField_other {α : Type} (l : List (String × α)) (key k : String)
    (f : α → α) (h : k ≠ key) : lookupField (updateField l key f) k = lookupField l k := by
  induction l with
  | nil => rfl
  | cons p rest ih =>
      obtain ⟨k0, v0⟩ := p
      by_cases hp : k0 = key
      · subst hp
        simp [updateField, lookupField, Ne.symm h]
      · by_cases hk : k0 = k
        · simp [updateField, lookupField, hp, hk, h]
        · simp [updateField, lookupField, hp, hk, ih]

theorem lookupField_append {α : Type} (l1 l2 : List (String × α)) (k : String) :
    lookupField (l1 ++ l2) k
      = (match lookupField l1 k with
         | some v => some v
         | none => lookupField l2 k) := by
  induction l1 with
  | nil => simp [lookupField]
  | cons p rest ih =>
      by_cases h : p.1 = k
      · simp [lookupField, h]
      · simp [lookupField, h, ih]

/-- The settled outcome list of `keys.map(key => analyzeTranslations(…)
.then(result => ({key, status: "fulfilled", value}))
.catch(error => ({key, status: "rejected", reason})))` awaited by
`Promise.all`: one entry per key, in order, each carrying that key's own
success or failure.  `oracle` abstracts the model call. -/
def settledResults (keys : List String) (oracle : String → Except String AIAnalysisResult) :
    List (String × Except String AIAnalysisResult) :=
  keys.map (fun k => (k, oracle k))

/-- One iteration of the merge loop of `handleAnalyzeAll`
(`ValueSearchPanel.tsx`): initialise the key's entry to
`{result: null, error: null}` when missing, then fill `result` on a
fulfilled outcome or `error` on a rejected one. -/
def mergeStep (acc : List (String × (Option AIAnalysisResult × Option String)))
    (r : String × Except String AIAnalysisResult) :
    List (String × (Option AIAnalysisResult × Option String)) :=
  let acc2 := if (lookupField acc r.1).isSome then acc else acc ++ [(r.1, (none, none))]
  match r.2 with
  | Except.ok v => updateField acc2 r.1 (fun e => (some v, e.2))
  | Except.error msg => updateField acc2 r.1 (fun e => (e.1, some msg))

/-- `handleAnalyzeAll` from `ValueSearchPanel.tsx`, abstracted over the
per-key model outcome: fan out one request per key, await all, and merge
the settled outcomes into the per-key map. -/
def handleAnalyzeAll (keys : List String)
    (oracle : String → Except String AIAnalysisResult) :
    List (String × (Option AIAnalysisResult × Option String)) :=
  (settledResults keys oracle).foldl mergeStep []

/-- The entry the per-key map must hold for `k`: its own result on
success, its own error message on failure. -/
def outcomeOf (oracle : String → Except String AIAnalysisResult) (k : String) :
    Option AIAnalysisResult × Option String :=
  match oracle k with
  | Except.ok r => (some r, none)
  | Except.error e => (none, some e)

theorem mergeStep_invariant_self (acc : List (String × (Option AIAnalysisResult × Option String)))
    (oracle : String → Except String AIAnalysisResult) (k0 : String)
    (hinv : ∀ k v, lookupField acc k = some v → v = outcomeOf oracle k) :
    lookupField (mergeStep acc (k0, oracle k0)) k0 = some (outcomeOf oracle k0) := by
  rw [mergeStep]
  have hacc2 : lookupField
      (if (lookupField acc k0).isSome then acc else acc ++ [(k0, (none, none))]) k0
      = some ((lookupField acc k0).getD (none, none)) := by
    cases h : lookupField acc k0 with
    | some v => simp [h]
    | none => simp [h, lookupField_append, lookupField]
  cases ho : oracle k0 with
  | ok v =>
      simp only [ho, lookupField_updateField_self, hacc2, Option.map_some]
      cases h : lookupField acc k0 with
      | some v0 =>
          have := hinv k0 v0 h
          simp [h, this, outcomeOf, ho]
      | none => simp [h, outcomeOf, ho]
  | error msg =>
      simp only [ho, lookupField_updateField_self, hacc2, Option.map_some]
      cases h : lookupField acc k0 with
      | some v0 =>
          have := hinv k0 v0 h
          simp [h, this, outcomeOf, ho]
      | none => simp [h, outcomeOf, ho]

theorem mergeStep_other (acc : List (String × (Option AIAnalysisResult × Option String)))
    (r : String × Except String AIAnalysisResult) (k : String) (h : k ≠ r.1) :
    lookupField (mergeStep acc r) k = lookupField acc k := by
  rw [mergeStep]
  have hacc2 : lookupField
      (if (lookupField acc r.1).isSome then acc else acc ++ [(r.1, (none, none))]) k
      = lookupField acc k := by
    cases hl : lookupField acc r.1 with
    | some v => simp [hl]
    | none =>
        simp only [hl, Option.isSome_none, Bool.false_eq_true, if_false, lookupField_append]
        cases hk : lookupField acc k with
        | some v => simp
        | none => simp [lookupField, Ne.symm h]
  cases r.2 with
  | ok v => rw [lookupField_updateField_other _ _ _ _ h, hacc2]
  | error msg => rw [lookupField_updateField_other _ _ _ _ h, hacc2]

theorem mergeLoop_spec (oracle : String → Except String AIAnalysisResult) (ks : List String)
    (acc : List (String × (Option AIAnalysisResult × Option String)))
    (hinv : ∀ k v, lookupField acc k = some v → v = outcomeOf oracle k) (k : String)
    (hk : k ∈ ks ∨ (lookupField acc k).isSome = true) :
    lookupField ((ks.map (fun k2 => (k2, oracle k2))).foldl mergeStep acc) k
      = some (outcomeOf oracle k) := by
  induction ks generalizing acc with
  | nil =>
      rcases hk with hk | hk
      · simp at hk
      · cases h : lookupField acc k with
        | none => rw [h] at hk; simp at hk
        | some v => simpa [h] using congrArg some (hinv k v h)
  | cons k0 rest ih =>
      simp only [List.map_cons, List.foldl_cons]
      have hinv2 : ∀ k2 v, lookupField (mergeStep acc (k0, oracle k0)) k2 = some v →
          v = outcomeOf oracle k2 := by
        intro k2 v hv
        by_cases he : k2 = k0
        · subst he
          rw [mergeStep_invariant_self acc oracle k2 hinv] at hv
          exact (Option.some.inj hv).symm
        · rw [mergeStep_other acc (k0, oracle k0) k2 he] at hv
          exact hinv k2 v hv
      refine ih (mergeStep acc (k0, oracle k0)) hinv2 ?_
      by_cases he : k = k0
      · subst he
        right
        rw [mergeStep_invariant_self acc oracle k hinv]
        rfl
      · rcases hk with hk | hk
        · rcases List.mem_cons.mp hk with hk | hk
          · exact absurd hk he
          · exact Or.inl hk
        · right
          rw [mergeStep_other acc (k0, oracle k0) k he]
          exact hk

/-- C6.  The all-keys analysis issues one request per key in order
(conjunct 2: the settled fan-out carries exactly the key list), and the
merged per-key map holds, for every key of the list, exactly that key's
own outcome — the result on fulfilment, the error message on rejection —
so one key's rejection never removes, cancels or alters the entries of
the other keys (conjunct 1). -/
theorem c6_analyze_all_merges_every_key (keys : List String)
    (oracle : String → Except String AIAnalysisResult) :
    (∀ k ∈ keys, lookupField (handleAnalyzeAll keys oracle) k = some (outcomeOf oracle k))
    ∧ (settledResults keys oracle).map Prod.fst = keys := by
  constructor
  · intro k hk
    exact mergeLoop_spec oracle keys [] (by intro k2 v hv; simp [lookupField] at hv) k
      (Or.inl hk)
  · induction keys with
    | nil => rfl
    | cons k rest ih => simpa [settledResults] using ih

/-- The concrete per-key outcome used by the C6 witness: key `a` succeeds
with an empty analysis, every other key rejects with message `boom`. -/
def c6Oracle (k : String) : Except String AIAnalysisResult :=
  if k = "a" then Except.ok ⟨[]⟩ else Except.error "boom"

/-- Witness for C6: with keys `[a, b]`, key `a` holds its result and `b`
holds its own error, the failure of `b` leaving `a` untouched. -/
theorem c6_witness :
    lookupField (handleAnalyzeAll ["a", "b"] c6Oracle) "a"
      = some (some ⟨[]⟩, none)
    ∧ lookupField (handleAnalyzeAll ["a", "b"] c6Oracle) "b"
      = some (none, some "boom") :=
  ⟨(c6_analyze_all_merges_every_key ["a", "b"] c6Oracle).1 "a" (by simp),
   (c6_analyze_all_merges_every_key ["a", "b"] c6Oracle).1 "b" (by simp)⟩

mutual

/-- JavaScript `String(v)` for the values of this model (objects print as
`[object Object]`, arrays join their elements with commas, `null`
elements print empty inside arrays). -/
def jsToString : Json → String
  | Json.null => "null"
  | Json.bool b => if b then "true" else "false"
  | Json.num n => toString n
  | Json.str s => s
  | Json.arr elems _ => jsToStringList elems
  | Json.obj _ => "[object Object]"

def jsToStringList : List Json → String
  | [] => ""
  | [Json.null] => ""
  | [e] => jsToString e
  | Json.null :: e2 :: rest => "," ++ jsToStringList (e2 :: rest)
  | e :: e2 :: rest => jsToString e ++ "," ++ jsToStringList (e2 :: rest)

end

/-- `String(x || "")`: the empty string when the looked-up value is absent
or falsy, its string coercion otherwise. -/
def stringOrEmpty (v : Option Json) : String :=
  match v with
  | none => ""
  | some j => if jsFalsy j then "" else jsToString j

/-- The skip test of the bulk loop: `!polishValue && !englishValue`, where
`englishValue` is `null` when no English file exists. -/
def skipKey (polishData : Json) (englishData : Option Json) (key : String) : Bool :=
  (stringOrEmpty (getValueByPath polishData key) == "")
    && (match englishData with
        | some e => stringOrEmpty (getValueByPath e key) == ""
        | none => true)

/-- `Except.isOk`-style test for the abstract model call. -/
def exceptIsOk {ε α : Type} : Except ε α → Bool
  | Except.ok _ => true
  | Except.error _ => false

/-- The observable trace of `handleStartBulkTranslate`: the accumulated
suggestions, every `setBulkTranslateProgress` update in order, and the
keys for which `bulkTranslate` was invoked, in order. -/
structure BulkAcc where
  suggestions : List (String × List (String × String))
  progress : List (Nat × Nat)
  calls : List String

/-- One iteration of the bulk loop (`src/unnamed/part_006`, lines
318–342): a key with neither a Polish nor an English value hits
`continue`, which skips the model call, the suggestion push *and* the
progress update at the bottom of the loop body; otherwise the model is
called (a throw is logged and ignored, a success is appended to the
suggestions) and the progress is set to `(i + 1, total)`. -/
def bulkStep (polishData : Json) (englishData : Option Json)
    (oracle : String → Except String (List (String × String))) (total : Nat)
    (acc : BulkAcc) (i : Nat) (key : String) : BulkAcc :=
  if skipKey polishData englishData key then acc
  else
    let acc2 : BulkAcc :=
      match oracle key with
      | Except.ok results =>
          ⟨acc.suggestions ++ [(key, results.foldl (fun m r => insertField m r.1 r.2) [])],
           acc.progress, acc.calls ++ [key]⟩
      | Except.error _ => ⟨acc.suggestions, acc.progress, acc.calls ++ [key]⟩
    ⟨acc2.suggestions, acc2.progress ++ [(i + 1, total)], acc2.calls⟩

/-- The sequential `for` loop of `handleStartBulkTranslate`, one key at a
time in order. -/
def bulkLoop (polishData : Json) (englishData : Option Json)
    (oracle : String → Except String (List (String × String))) (total : Nat) :
    Nat → List String → BulkAcc → BulkAcc
  | _, [], acc => acc
  | i, key :: rest, acc =>
      bulkLoop polishData englishData oracle total (i + 1) rest
        (bulkStep polishData englishData oracle total acc i key)

/-- The outcome of one `handleStartBulkTranslate` run: the alert message
of an aborted run, and the suggestion/progress/call traces. -/
structure BulkOutcome where
  alertMessage : Option String
  suggestions : List (String × List (String × String))
  progress : List (Nat × Nat)
  calls : List String

/-- `handleStartBulkTranslate` from `src/unnamed/part_006`: an initial
`(0, total)` progress report, an alert-and-abort when no Polish file or no
target language exists, then the sequential per-key loop.  `oracle`
abstracts the `bulkTranslate` model call. -/
def handleStartBulkTranslate (translationFiles : List TranslationFile)
    (allKeys : List String)
    (oracle : String → Except String (List (String × String))) : BulkOutcome :=
  let total := allKeys.length
  match findPolishFile translationFiles with
  | none =>
      ⟨some "A Polish file (pl.json) is required as a source for bulk translation.",
       [], [(0, total)], []⟩
  | some polishFile =>
      let englishFile := findEnglishFile translationFiles
      let targetLangs := (otherFiles translationFiles polishFile englishFile).map
        (fun f => f.name)
      if targetLangs.length = 0 then
        ⟨some "No target languages found for translation. You need files other than Polish and English.",
         [], [(0, total)], []⟩
      else
        let res := bulkLoop polishFile.data (englishFile.map (fun f => f.data)) oracle total
          0 allKeys ⟨[], [(0, total)], []⟩
        ⟨none, res.suggestions, res.progress, res.calls⟩

/-- The progress updates the loop actually emits from index `i` on: one
`(index + 1, total)` per non-skipped key, nothing for skipped keys. -/
def progressSpec (polishData : Json) (englishData : Option Json) (total : Nat) :
    Nat → List String → List (Nat × Nat)
  | _, [] => []
  | i, key :: rest =>
      (if skipKey polishData englishData key then [] else [(i + 1, total)])
        ++ progressSpec polishData englishData total (i + 1) rest

theorem bulkLoop_calls (polishData : Json) (englishData : Option Json)
    (oracle : String → Except String (List (String × String))) (total : Nat)
    (ks : List String) (i : Nat) (acc : BulkAcc) :
    (bulkLoop polishData englishData oracle total i ks acc).calls
      = acc.calls ++ ks.filter (fun k => !skipKey polishData englishData k) := by
  induction ks generalizing i acc with
  | nil => simp [bulkLoop]
  | cons key rest ih =>
      rw [bulkLoop, ih]
      by_cases hs : skipKey polishData englishData key = true
      · simp [bulkStep, hs]
      · simp only [Bool.not_eq_true] at hs
        cases ho : oracle key with
        | ok results => simp [bulkStep, hs, ho]
        | error msg => simp [bulkStep, hs, ho]

theorem bulkLoop_progress (polishData : Json) (englishData : Option Json)
    (oracle : String → Except String (List (String × String))) (total : Nat)
    (ks : List String) (i : Nat) (acc : BulkAcc) :
    (bulkLoop polishData englishData oracle total i ks acc).progress
      = acc.progress ++ progressSpec polishData englishData total i ks := by
  induction ks generalizing i acc with
  | nil => simp [bulkLoop, progressSpec]
  | cons key rest ih =>
      rw [bulkLoop, ih, progressSpec]
      by_cases hs : skipKey polishData englishData key = true
      · simp [bulkStep, hs]
      · simp only [Bool.not_eq_true] at hs
        cases ho : oracle key with
        | ok results => simp [bulkStep, hs, ho]
        | error msg => simp [bulkStep, hs, ho]

theorem bulkLoop_suggestions (polishData : Json) (englishData : Option Json)
    (oracle : String → Except String (List (String × String))) (total : Nat)
    (ks : List String) (i : Nat) (acc : BulkAcc) :
    (bulkLoop polishData englishData oracle total i ks acc).suggestions.map Prod.fst
      = acc.suggestions.map Prod.fst
          ++ ks.filter (fun k =>
              !skipKey polishData englishData k && exceptIsOk (oracle k)) := by
  induction ks generalizing i acc with
  | nil => simp [bulkLoop]
  | cons key rest ih =>
      rw [bulkLoop, ih]
      by_cases hs : skipKey polishData englishData key = true
      · simp [bulkStep, hs]
      · simp only [Bool.not_eq_true] at hs
        cases ho : oracle key with
        | ok results => simp [bulkStep, hs, ho, exceptIsOk]
        | error msg => simp [bulkStep, hs, ho, exceptIsOk]

/-- C5 (amended).  With a Polish file and at least one target language,
the bulk loop visits the keys one at a time in their order: the model is
called exactly for the non-skipped keys in order (conjunct 2) — a key
whose source-of-truth and primary values are both absent or empty is
skipped without a model call; a key whose call throws is logged and the
loop continues, every non-skipped key contributing a `(index + 1, total)`
progress update whether it succeeded or failed (conjunct 3, after the
initial `(0, total)`); suggestions are accumulated exactly for the
non-skipped successful keys, in order (conjunct 4).  Skipped keys, by
contrast with the original claim, emit no progress update: `continue`
jumps past the update at the bottom of the loop body. -/
theorem c5_bulk_translate_trace (files : List TranslationFile) (allKeys : List String)
    (oracle : String → Except String (List (String × String))) (pf : TranslationFile)
    (hpf : findPolishFile files = some pf)
    (hT : ((otherFiles files pf (findEnglishFile files)).map (fun f => f.name)).length ≠ 0) :
    (handleStartBulkTranslate files allKeys oracle).alertMessage = none
    ∧ (handleStartBulkTranslate files allKeys oracle).calls
        = allKeys.filter (fun k =>
            !skipKey pf.data ((findEnglishFile files).map (fun f => f.data)) k)
    ∧ (handleStartBulkTranslate files allKeys oracle).progress
        = (0, allKeys.length)
            :: progressSpec pf.data ((findEnglishFile files).map (fun f => f.data))
                allKeys.length 0 allKeys
    ∧ (handleStartBulkTranslate files allKeys oracle).suggestions.map Prod.fst
        = allKeys.filter (fun k =>
            !skipKey pf.data ((findEnglishFile files).map (fun f => f.data)) k
              && exceptIsOk (oracle k)) := by
  have hout : handleStartBulkTranslate files allKeys oracle
      = ⟨none,
         (bulkLoop pf.data ((findEnglishFile files).map (fun f => f.data)) oracle
           allKeys.length 0 allKeys ⟨[], [(0, allKeys.length)], []⟩).suggestions,
         (bulkLoop pf.data ((findEnglishFile files).map (fun f => f.data)) oracle
           allKeys.length 0 allKeys ⟨[], [(0, allKeys.length)], []⟩).progress,
         (bulkLoop pf.data ((findEnglishFile files).map (fun f => f.data)) oracle
           allKeys.length 0 allKeys ⟨[], [(0, allKeys.length)], []⟩).calls⟩ := by
    rw [handleStartBulkTranslate]
    simp only [hpf, if_neg hT]
  rw [hout]
  exact ⟨rfl,
    by simpa using bulkLoop_calls pf.data _ oracle allKeys.length allKeys 0 _,
    by simpa using bulkLoop_progress pf.data _ oracle allKeys.length allKeys 0 _,
    by simpa using bulkLoop_suggestions pf.data _ oracle allKeys.length allKeys 0 _⟩

/-- The two-file session of the C5 example: a Polish source with a value
only for key `b`, and a German target. -/
def c5Files : List TranslationFile :=
  [⟨"pl", Json.obj [("b", Json.str "Czesc")]⟩, ⟨"de", Json.obj []⟩]

/-- The model call of the C5 example: key `b` translates, everything else
throws. -/
def c5Oracle (k : String) : Except String (List (String × String)) :=
  if k = "b" then Except.ok [("de", "Hallo")] else Except.error "fail"

/-- Witness for C5 (amended) on the concrete session: key `a` (index 0)
is skipped, so the trace is exactly calls `[b]`, progress
`[(0,2), (2,2)]` and suggestions for `[b]`. -/
theorem c5_witness :
    (handleStartBulkTranslate c5Files ["a", "b"] c5Oracle).alertMessage = none
    ∧ (handleStartBulkTranslate c5Files ["a", "b"] c5Oracle).calls
        = ["a", "b"].filter (fun k =>
            !skipKey (Json.obj [("b", Json.str "Czesc")])
              ((findEnglishFile c5Files).map (fun f => f.data)) k)
    ∧ (handleStartBulkTranslate c5Files ["a", "b"] c5Oracle).progress
        = (0, 2)
            :: progressSpec (Json.obj [("b", Json.str "Czesc")])
                ((findEnglishFile c5Files).map (fun f => f.data)) 2 0 ["a", "b"]
    ∧ (handleStartBulkTranslate c5Files ["a", "b"] c5Oracle).suggestions.map Prod.fst
        = ["a", "b"].filter (fun k =>
            !skipKey (Json.obj [("b", Json.str "Czesc")])
              ((findEnglishFile c5Files).map (fun f => f.data)) k
              && exceptIsOk (c5Oracle k)) :=
  c5_bulk_translate_trace c5Files ["a", "b"] c5Oracle
    ⟨"pl", Json.obj [("b", Json.str "Czesc")]⟩ rfl (by decide)

/-- Counterexample to C5 as stated: in the concrete run, key `a` at index
0 is skipped (both reference values are absent), and the emitted progress
updates are exactly `[(0,2), (2,2)]` — the claimed `(0 + 1, 2)` update
after the skipped key is never issued. -/
theorem c5_counterexample :
    skipKey (Json.obj [("b", Json.str "Czesc")]) none "a" = true
    ∧ (handleStartBulkTranslate c5Files ["a", "b"] c5Oracle).progress = [(0, 2), (2, 2)]
    ∧ ¬ (1, 2) ∈ (handleStartBulkTranslate c5Files ["a", "b"] c5Oracle).progress := by
  refine ⟨by decide, ?_, ?_⟩ <;> decide

/-- Remove the first occurrence of `pat` from a character list
(JavaScript `s.replace(pat, "")` with a string pattern). -/
def removeFirstInfix (pat : List Char) : List Char → List Char
  | [] => []
  | x :: xs =>
      if pat.isPrefixOf (x :: xs) then (x :: xs).drop pat.length
      else x :: removeFirstInfix pat xs

/-- `name.replace(".json", "")`: drop the first occurrence of the
pattern. -/
def jsReplaceFirstEmpty (s pat : String) : String :=
  String.mk (removeFirstInfix pat.data s.data)

/-- `name.endsWith(suf)`. -/
def jsEndsWith (s suf : String) : Bool :=
  suf.data.isSuffixOf s.data

/-- `Object.keys(x).length` for a parsed JSON value. -/
def jsKeysLength : Json → Nat
  | Json.obj fields => fields.length
  | Json.arr elems props => elems.length + props.length
  | Json.str s => s.length
  | _ => 0

/-- `data.context || ""` read from a parsed `app_context.json`. -/
def appContextOf (data : Json) : String :=
  match jsGet data "context" with
  | none => ""
  | some v => if jsFalsy v then "" else jsToString v

/-- The upload result object assembled by `processFiles`
(`FileUploader.tsx`). -/
structure UploadPayload where
  translationFiles : List TranslationFile
  contexts : Json
  glossary : Json
  history : Json
  groups : Json
  appGlobalContext : String

/-- `defaultResult` from `FileUploader.tsx`: the payload handed to the
app whenever the upload fails. -/
def defaultResult : UploadPayload :=
  ⟨[], Json.obj [], Json.obj [], Json.obj [], Json.arr [] [], ""⟩

/-- One file of the `for (const file of filesToProcess)` loop routed into
the accumulator: the reserved names fill their slots, anything else
becomes a translation file named after its stem. -/
def applyFile (acc : UploadPayload) (name : String) (data : Json) : UploadPayload :=
  if name = "context.json" then
    ⟨acc.translationFiles, data, acc.glossary, acc.history, acc.groups, acc.appGlobalContext⟩
  else if name = "glossary.json" then
    ⟨acc.translationFiles, acc.contexts, data, acc.history, acc.groups, acc.appGlobalContext⟩
  else if name = "history.json" then
    ⟨acc.translationFiles, acc.contexts, acc.glossary, data, acc.groups, acc.appGlobalContext⟩
  else if name = "groups.json" then
    ⟨acc.translationFiles, acc.contexts, acc.glossary, acc.history, data, acc.appGlobalContext⟩
  else if name = "app_context.json" then
    ⟨acc.translationFiles, acc.contexts, acc.glossary, acc.history, acc.groups,
     appContextOf data⟩
  else
    ⟨acc.translationFiles ++ [⟨jsReplaceFirstEmpty name ".json", data⟩], acc.contexts,
     acc.glossary, acc.history, acc.groups, acc.appGlobalContext⟩

/-- The per-file loop of `processFiles` (`FileUploader.tsx`): a non-JSON
name or a failed parse (`none`) aborts with the corresponding error
message; otherwise the file is routed into the accumulator.  The input
models `(file.name, JSON.parse outcome)` pairs. -/
def processLoop : List (String × Option Json) → UploadPayload → Except String UploadPayload
  | [], acc => Except.ok acc
  | (name, parsed) :: rest, acc =>
      if jsEndsWith name ".json" = false then
        Except.error ("File \"" ++ name ++ "\" is not a valid JSON file.")
      else
        match parsed with
        | none =>
            Except.error ("Error parsing \"" ++ name ++ "\". Please ensure it\x27s valid JSON.")
        | some data => processLoop rest (applyFile acc name data)

/-- `processFiles` from `FileUploader.tsx` after unpacking: run the loop,
then require a non-empty parsed context map and at least one translation
file. -/
def processFiles (files : List (String × Option Json)) : Except String UploadPayload :=
  match processLoop files defaultResult with
  | Except.error e => Except.error e
  | Except.ok acc =>
      if jsKeysLength acc.contexts = 0 then
        Except.error "\x60context.json\x60 is required. Please include it in your upload."
      else if acc.translationFiles.length = 0 then
        Except.error "Please upload at least one translation file along with \x60context.json\x60."
      else Except.ok acc

/-- Insertion-order deduplication (the `Set` union of
`handleFilesUpload`). -/
def dedupAux : List String → List String → List String
  | [], _ => []
  | x :: xs, seen =>
      if seen.contains x then dedupAux xs seen else x :: dedupAux xs (x :: seen)

/-- First-occurrence deduplication of the flattened key lists. -/
def dedupKeys (l : List String) : List String := dedupAux l []

/-- Lexicographic (code-point) comparison of JavaScript default string
sorting. -/
def charListLe : List Char → List Char → Bool
  | [], _ => true
  | _ :: _, [] => false
  | a :: as, b :: bs => if a = b then charListLe as bs else decide (a < b)

/-- `a <= b` for the sort of the key list. -/
def strLeJs (a b : String) : Bool := charListLe a.data b.data

/-- Insert into a sorted list (the model of `Array.prototype.sort()` on
the deduplicated key list). -/
def insertSorted (a : String) : List String → List String
  | [] => [a]
  | b :: rest => if strLeJs a b then a :: b :: rest else b :: insertSorted a rest

/-- Sort the key list (`Array.from(set).sort()`). -/
def sortStrings (l : List String) : List String := l.foldr insertSorted []

/-- The session state of `App.tsx` touched by `handleFilesUpload`. -/
structure SessionState where
  translationFiles : List TranslationFile
  contexts : Json
  translationHistory : Json
  translationGroups : Json
  allKeys : List String
  selectedKey : Option String

/-- `handleFilesUpload` from `App.tsx` (lines 121–148): unconditionally
replace every slot of the session state with the upload result, recompute
the sorted key union, and select the first key (`sortedKeys[0] || null`). -/
def handleFilesUpload (_st : SessionState) (u : UploadPayload) : SessionState :=
  if u.translationFiles.length > 0 then
    let sortedKeys := sortStrings (dedupKeys
      (u.translationFiles.flatMap (fun f => flattenObjectKeys f.data "")))
    ⟨u.translationFiles, u.contexts, u.history, u.groups, sortedKeys,
     (match sortedKeys.head? with
      | some k => if k = "" then none else some k
      | none => none)⟩
  else
    ⟨u.translationFiles, u.contexts, u.history, u.groups, [], none⟩

/-- The state `handleFilesUpload` produces from `defaultResult`: an empty
session. -/
def emptySession : SessionState :=
  ⟨[], Json.obj [], Json.obj [], Json.arr [] [], [], none⟩

/-- The composition the upload button runs: `processFiles`, then
`onFilesUploaded` with either the parsed payload or — on every failure
path — `defaultResult`, together with the `setError` message shown to the
user. -/
def uploadToApp (st : SessionState) (files : List (String × Option Json)) :
    SessionState × Option String :=
  match processFiles files with
  | Except.error msg => (handleFilesUpload st defaultResult, some msg)
  | Except.ok payload => (handleFilesUpload st payload, none)

theorem processLoop_error_of_parse_failure (files : List (String × Option Json))
    (acc : UploadPayload) (h : files.any (fun f => f.2.isNone) = true) :
    ∃ e, processLoop files acc = Except.error e := by
  induction files generalizing acc with
  | nil => simp at h
  | cons f rest ih =>
      obtain ⟨name, parsed⟩ := f
      simp only [processLoop]
      by_cases hn : jsEndsWith name ".json" = false
      · rw [if_pos hn]; exact ⟨_, rfl⟩
      · rw [if_neg hn]
        cases parsed with
        | none => exact ⟨_, rfl⟩
        | some d =>
            have h2 : rest.any (fun f => f.2.isNone) = true := by simpa using h
            exact ih (applyFile acc name d) h2

/-- C4 (amended).  Every failing upload — any file that fails JSON
parsing (conjunct 2), an empty parsed context map such as a
`context.json` holding `{}` (conjunct 3), or zero translation files
(conjunct 4) — produces a user-visible error; but instead of leaving the
session unchanged, the uploader hands `defaultResult` to
`handleFilesUpload`, which unconditionally overwrites the session: the
state after a failed upload is the empty session, whatever it was before
(conjunct 1). -/
theorem c4_failed_upload_resets_state :
    (∀ (st : SessionState) (files : List (String × Option Json)) (msg : String),
        processFiles files = Except.error msg →
        uploadToApp st files = (emptySession, some msg))
    ∧ (∀ files : List (String × Option Json),
        files.any (fun f => f.2.isNone) = true →
        ∃ msg, processFiles files = Except.error msg)
    ∧ (∀ (files : List (String × Option Json)) (acc : UploadPayload),
        processLoop files defaultResult = Except.ok acc →
        jsKeysLength acc.contexts = 0 →
        ∃ msg, processFiles files = Except.error msg)
    ∧ (∀ (files : List (String × Option Json)) (acc : UploadPayload),
        processLoop files defaultResult = Except.ok acc →
        acc.translationFiles.length = 0 →
        ∃ msg, processFiles files = Except.error msg) := by
  refine ⟨?_, ?_, ?_, ?_⟩
  · intro st files msg h
    rw [uploadToApp, h]
    rfl
  · intro files h
    obtain ⟨e, he⟩ := processLoop_error_of_parse_failure files defaultResult h
    exact ⟨e, by rw [processFiles, he]⟩
  · intro files acc hloop hctx
    refine ⟨"\x60context.json\x60 is required. Please include it in your upload.", ?_⟩
    simp only [processFiles, hloop]
    rw [if_pos hctx]
  · intro files acc hloop hfiles
    by_cases hctx : jsKeysLength acc.contexts = 0
    · refine ⟨"\x60context.json\x60 is required. Please include it in your upload.", ?_⟩
      simp only [processFiles, hloop]
      rw [if_pos hctx]
    · refine
        ⟨"Please upload at least one translation file along with \x60context.json\x60.", ?_⟩
      simp only [processFiles, hloop]
      rw [if_neg hctx, if_pos hfiles]

/-- The prior session of the C4 example: one English file already
loaded. -/
def c4State : SessionState :=
  ⟨[⟨"en", Json.obj [("a", Json.str "Save")]⟩], Json.obj [("a", Json.str "ctx")],
   Json.obj [], Json.arr [] [], ["a"], some "a"⟩

/-- The failing upload of the C4 example: a `context.json` parsing to
`{}` plus one `en.json`. -/
def c4Upload : List (String × Option Json) :=
  [("context.json", some (Json.obj [])),
   ("en.json", some (Json.obj [("a", Json.str "Save")]))]

/-- Witness for C4 (amended): the `{}`-context upload fails with the
`context.json`-required message and resets the loaded session to the
empty one. -/
theorem c4_witness :
    processFiles c4Upload
      = Except.error "\x60context.json\x60 is required. Please include it in your upload."
    ∧ uploadToApp c4State c4Upload
      = (emptySession,
         some "\x60context.json\x60 is required. Please include it in your upload.") :=
  ⟨rfl, c4_failed_upload_resets_state.1 c4State c4Upload _ rfl⟩

/-- Counterexample to C4 as stated: the upload with `context.json = {}`
does fail with a user-visible error, but the session state is not left
unchanged — the previously loaded translation files are wiped. -/
theorem c4_counterexample :
    (uploadToApp c4State c4Upload).2.isSome = true
    ∧ (uploadToApp c4State c4Upload).1.translationFiles = []
    ∧ c4State.translationFiles ≠ [] := by
  refine ⟨rfl, rfl, ?_⟩
  simp [c4State]
